import Mathlib

/-!
Shallow embedding of the remote-path layer of the spim-io repository
(src/spimio/dandi.py) and of the slab metadata aggregation
(src/spimio/spiminfo.py), together with theorems settling the frozen
claims about them.

The Python code subclasses pathlib.PurePosixPath (Python 3.9 pathlib
semantics: no drive on the posix flavour, casefold is the identity,
path equality compares the casefolded part list).  Paths are embedded
as a structure holding the parsed (drv, root, parts) data of pathlib,
the attached remote handle, and the concrete class of the instance.
-/

namespace Spimio

/-- A remote dandiset handle: the only observable the code uses is the
ordered collection of asset path strings (dandi's
get_assets_with_path_prefix filters them by string prefix, preserving
order; get_asset_by_path is an exact lookup). -/
structure RemoteDandiset where
  assets : List String
deriving DecidableEq

/-- The concrete Python class of a path instance (RemotePath.__new__
hard-codes DandiPath as the class it instantiates). -/
inductive PathCls
  | remotePath
  | dandiPath
deriving DecidableEq

/-- Embedding of a RemotePath/DandiPath instance: pathlib's _drv, _root,
_parts slots (the parts list contains the drv+root string as its first
element when the path is rooted), plus the remote attribute and the
instance's class. -/
structure RemotePath where
  drv : String
  root : String
  parts : List String
  remote : Option RemoteDandiset
  cls : PathCls
deriving DecidableEq

/-- Errors raised by the embedded operations. -/
inductive PathError
  | valueError (msg : String)
  | typeError
  | indexError (idx : Int)
  | notADirectory
  | attributeError
  | notImplementedError (msg : String)
  | notRelative (selfStr otherStr : String)
deriving DecidableEq

/-- A positional constructor argument: a string or another path
(pathlib accepts both; other PathLike objects reduce to strings). -/
inductive PathArg
  | str (s : String)
  | path (p : RemotePath)
deriving DecidableEq

/-- Splitting a character list on the separator, as str.split does:
the result always has one more group than there are separators. -/
def splitSep : List Char → List (List Char)
  | [] => [[]]
  | c :: rest =>
    if c == '/' then [] :: splitSep rest
    else
      match splitSep rest with
      | [] => [[c]]
      | g :: gs => (c :: g) :: gs

/-- Parsing the non-root portion of one argument, as
_PosixFlavour.parse_parts does for a single relative chunk: split on the
separator and drop empty and "." components. -/
def parseRelChars (l : List Char) : List String :=
  ((splitSep l).map (fun g => String.mk g)).filter (fun x => x != "" && x != ".")

/-- Embedding of _PosixFlavour.splitroot followed by the relative split:
the root is "//" for exactly two leading slashes, "/" for one or three or
more, "" otherwise; the rest is split into components. -/
def parseOnePart (a : String) : String × List String :=
  let l := a.data
  let lead := l.takeWhile (fun c => c == '/')
  let rest := l.dropWhile (fun c => c == '/')
  let root := if lead.length == 0 then "" else if lead.length == 2 then "//" else "/"
  (root, parseRelChars rest)

/-- Embedding of _PosixFlavour.parse_parts over a list of string
arguments.  pathlib iterates the arguments in reverse and stops at the
first (i.e. last in the original order) argument carrying a root, which
discards everything before it; the posix flavour never produces a
drive. -/
def parseParts : List String → String × List String
  | [] => ("", [])
  | a :: rest =>
    let pr := parseParts rest
    if pr.1 ≠ "" then pr
    else
      let pa := parseOnePart a
      (pa.1, pa.2 ++ pr.2)

/-- pathlib appends drv+root as the head of the parts list when the path
is anchored. -/
def mkParts (drv root : String) (segs : List String) : List String :=
  if drv ≠ "" ∨ root ≠ "" then (drv ++ root) :: segs else segs

/-- The strings contributed by one constructor argument: path arguments
contribute their already-parsed parts (re-parsed downstream exactly as
pathlib does). -/
def argStrings : PathArg → List String
  | .str s => [s]
  | .path p => p.parts

/-- The remote handle contributed by the arguments: the first RemotePath
argument with a non-None remote wins (remote = remote or a.remote in
_parse_args_with_remote). -/
def argsRemote : List PathArg → Option RemoteDandiset
  | [] => none
  | .str _ :: rest => argsRemote rest
  | .path p :: rest =>
    match p.remote with
    | some r => some r
    | none => argsRemote rest

/-- Embedding of RemotePath._from_parts: parse the arguments, store the
parsed data and take the explicit remote, falling back to the remote
found among the arguments (self.remote = remote or rem). -/
def fromParts (cls : PathCls) (args : List PathArg) (remote : Option RemoteDandiset) :
    RemotePath :=
  let rem := argsRemote args
  let pr := parseParts (args.flatMap argStrings)
  { drv := "", root := pr.1, parts := mkParts "" pr.1 pr.2,
    remote := remote.orElse (fun _ => rem), cls := cls }

/-- Embedding of RemotePath._from_parsed_parts. -/
def fromParsedParts (cls : PathCls) (drv root : String) (parts : List String)
    (remote : Option RemoteDandiset) : RemotePath :=
  { drv := drv, root := root, parts := parts, remote := remote, cls := cls }

/-- Embedding of RemotePath.__new__: it builds the instance through
pathlib.PurePosixPath.__new__(DandiPath, *args), i.e. DandiPath._from_parts
with no explicit remote, and then overwrites self.remote with the remote
keyword argument.  The cls argument is ignored - the class is hard-coded
to DandiPath. -/
def remotePathNew (_cls : PathCls) (args : List PathArg) (remote : Option RemoteDandiset) :
    RemotePath :=
  let s := fromParts PathCls.dandiPath args none
  { s with remote := remote }

/-- Embedding of _Flavour.join_parsed_parts for the posix flavour (the
drive is always empty, so only the second root decides). -/
def joinParsedParts (drv root : String) (parts : List String) (drv2 root2 : String)
    (parts2 : List String) : String × String × List String :=
  if root2 ≠ "" then (drv2, root2, parts2)
  else (drv, root, parts ++ parts2)

/-- Embedding of RemotePath._make_child (joinpath, the / operator):
parse the new arguments, join, and keep self's remote unless self has
none and an argument supplies one. -/
def makeChild (p : RemotePath) (args : List PathArg) : RemotePath :=
  let rem := argsRemote args
  let pr := parseParts (args.flatMap argStrings)
  let parts2 := mkParts "" pr.1 pr.2
  let j := joinParsedParts p.drv p.root p.parts "" pr.1 parts2
  fromParsedParts p.cls j.1 j.2.1 j.2.2 (p.remote.orElse (fun _ => rem))

/-- Embedding of RemotePath._make_child_relpath: append one single part
(used for directory walking). -/
def makeChildRelpath (p : RemotePath) (part : String) : RemotePath :=
  fromParsedParts p.cls p.drv p.root (p.parts ++ [part]) p.remote

/-- Embedding of the parent property: roots with a single part are their
own parent, otherwise the last part is dropped. -/
def parent (p : RemotePath) : RemotePath :=
  if p.parts.length = 1 ∧ (p.drv ≠ "" ∨ p.root ≠ "") then p
  else fromParsedParts p.cls p.drv p.root p.parts.dropLast p.remote

/-- Embedding of PurePath.name: empty for a bare root or the empty path,
otherwise the last part. -/
def pathName (p : RemotePath) : String :=
  if p.parts.length = (if p.drv ≠ "" ∨ p.root ≠ "" then 1 else 0) then ""
  else p.parts.getLastD ""

/-- Embedding of PurePath._format_parsed_parts. -/
def formatParsedParts (drv root : String) (parts : List String) : String :=
  if drv ≠ "" ∨ root ≠ "" then drv ++ root ++ String.intercalate "/" (parts.drop 1)
  else String.intercalate "/" parts

/-- Embedding of str(path): the formatted parts, or "." when empty. -/
def strOf (p : RemotePath) : String :=
  let s := formatParsedParts p.drv p.root p.parts
  if s = "" then "." else s

/-- The posix flavour's casefold_parts is the identity. -/
def casefoldParts (l : List String) : List String := l

/-- Embedding of PurePath.__eq__: compares the casefolded part lists
(self._cparts == other._cparts); the remote handle takes no part.  All
instances the code creates share the DandiPath flavour, so the flavour
identity check always passes. -/
def pathEq (a b : RemotePath) : Bool :=
  casefoldParts a.parts == casefoldParts b.parts

/-- Embedding of PurePath.__hash__: a hash of the tuple of casefolded
parts. -/
def pathHash (a : RemotePath) : UInt64 :=
  (casefoldParts a.parts).foldl (fun h s => mixHash h s.hash) 5381

/-- The abstract absolute part list used by relative_to: drive and root
become separate leading entries when the path is rooted. -/
def absPartsOf (drv root : String) (parts : List String) : List String :=
  if root ≠ "" then [drv, root] ++ parts.drop 1 else parts

/-- Embedding of RemotePath.relative_to.  The other arguments are parsed
with plain _parse_args; failure carries both formatted path strings, as
the ValueError message does. -/
def relativeTo (p : RemotePath) (other : List PathArg) : Except PathError RemotePath :=
  if other.isEmpty then .error .typeError
  else
    let ap := absPartsOf p.drv p.root p.parts
    let pr := parseParts (other.flatMap argStrings)
    let toParts := mkParts "" pr.1 pr.2
    let toAbs := absPartsOf "" pr.1 toParts
    let n := toAbs.length
    if (if n = 0 then p.root ≠ "" ∨ p.drv ≠ "" else ap.take n ≠ toAbs) then
      .error (.notRelative (strOf p) (formatParsedParts "" pr.1 toParts))
    else
      .ok (fromParsedParts p.cls "" (if n = 1 then p.root else "") (ap.drop n) p.remote)

/-- relative_to applied to a single path argument. -/
def relativeTo1 (p other : RemotePath) : Except PathError RemotePath :=
  relativeTo p [.path other]

/-- Embedding of DandiPath.is_relative_to: relative_to succeeds and the
result differs from the "." path (whose part list is empty). -/
def isRelativeTo1 (p other : RemotePath) : Bool :=
  match relativeTo1 p other with
  | .ok rel => !(rel.parts == ([] : List String))
  | .error _ => false

/-!  The remote directory adapter (DandiPath's exists/is_dir/is_file,
iterdir and scandir). -/

/-- str.startswith, expressed on the character lists. -/
def strStartsWith (a s : String) : Bool :=
  s.data.isPrefixOf a.data

/-- dandi's get_assets_with_path_prefix: the assets whose full path
string starts with the given string, in store order. -/
def getAssetsWithPathPfx (ds : RemoteDandiset) (s : String) : List String :=
  ds.assets.filter (fun a => strStartsWith a s)

/-- Embedding of DandiPath.exists: false with no remote; otherwise true
when some asset under the string prefix equals this path or is a strict
descendant of it. -/
def dExists (p : RemotePath) : Bool :=
  match p.remote with
  | none => false
  | some ds =>
    (getAssetsWithPathPfx ds (strOf p)).any (fun a =>
      let ap := remotePathNew PathCls.dandiPath [.str a] none
      pathEq ap p || isRelativeTo1 ap p)

/-- Embedding of DandiPath.is_dir: true when some asset under the string
prefix is a strict descendant of this path. -/
def isDir (p : RemotePath) : Bool :=
  match p.remote with
  | none => false
  | some ds =>
    (getAssetsWithPathPfx ds (strOf p)).any (fun a =>
      isRelativeTo1 (remotePathNew PathCls.dandiPath [.str a] none) p)

/-- Embedding of DandiPath.is_file.  The code calls
self.dandiset.get_asset_by_path(str(self)) and only catches
NotFoundError; with remote None the attribute access on None raises an
AttributeError that is not caught. -/
def isFile (p : RemotePath) : Except PathError Bool :=
  match p.remote with
  | none => .error .attributeError
  | some ds => .ok (ds.assets.contains (strOf p))

/-- An item yielded while iterating a directory: iterdir yields plain
strings, scandir yields DandiPath objects. -/
inductive DirEntry
  | str (s : String)
  | path (p : RemotePath)
deriving DecidableEq

/-- The per-asset classification shared by iterdir and scandir: an asset
whose parent equals the directory is a direct file child (inl, carrying
the asset path string); otherwise an asset that is a strict descendant
contributes the first segment of its relative path (inr); anything else
is skipped.  The comparisons read only the part lists, so the remote
attached to the freshly parsed asset path is irrelevant. -/
def childLabel (p : RemotePath) (a : String) : Option (Sum String String) :=
  let ap := remotePathNew PathCls.dandiPath [.str a] none
  if pathEq p (parent ap) then some (.inl a)
  else
    match relativeTo1 ap p with
    | .ok rel => if rel.parts.isEmpty then none else some (.inr (rel.parts.headD ""))
    | .error _ => none

/-- The loop body of DandiPath.iterdir: files yield asset_path.parts[-1],
subdirectories yield the first relative segment, deduplicated through the
accumulated subdirs list (all yields are str objects). -/
def iterdirLoop (p : RemotePath) : List String → List String → List DirEntry
  | [], _ => []
  | a :: rest, subdirs =>
    match childLabel p a with
    | some (.inl a') =>
      .str ((remotePathNew PathCls.dandiPath [.str a'] none).parts.getLastD "")
        :: iterdirLoop p rest subdirs
    | some (.inr base) =>
      if subdirs.contains base then iterdirLoop p rest subdirs
      else .str base :: iterdirLoop p rest (subdirs ++ [base])
    | none => iterdirLoop p rest subdirs

/-- Embedding of DandiPath.iterdir: NotADirectoryError unless is_dir,
then the loop over the prefix query. -/
def iterdir (p : RemotePath) : Except PathError (List DirEntry) :=
  if isDir p then
    match p.remote with
    | some ds => .ok (iterdirLoop p (getAssetsWithPathPfx ds (strOf p)) [])
    | none => .error .notADirectory
  else .error .notADirectory

/-- The loop body of DandiPath.scandir: files yield the full DandiPath
built with dandiset=self.dandiset, subdirectories yield
self.joinpath(first segment), deduplicated through the accumulated list
of joined paths (membership uses path __eq__). -/
def scandirLoop (p : RemotePath) : List String → List RemotePath → List DirEntry
  | [], _ => []
  | a :: rest, subdirs =>
    match childLabel p a with
    | some (.inl a') =>
      .path (remotePathNew PathCls.dandiPath [.str a'] p.remote) :: scandirLoop p rest subdirs
    | some (.inr seg) =>
      let base := makeChild p [.str seg]
      if subdirs.any (fun q => pathEq q base) then scandirLoop p rest subdirs
      else .path base :: scandirLoop p rest (subdirs ++ [base])
    | none => scandirLoop p rest subdirs

/-- Embedding of DandiPath.scandir. -/
def scandir (p : RemotePath) : Except PathError (List DirEntry) :=
  if isDir p then
    match p.remote with
    | some ds => .ok (scandirLoop p (getAssetsWithPathPfx ds (strOf p)) [])
    | none => .error .notADirectory
  else .error .notADirectory

/-!  The parents sequence (_RemotePathParents). -/

/-- The record the _RemotePathParents initializer tries to populate. -/
structure RemotePathParentsObj where
  pathcls : PathCls
  drv : String
  root : String
  parts : List String
  remote : Option RemoteDandiset
deriving DecidableEq

/-- The __slots__ declared on _RemotePathParents.  All of its
collections.abc bases declare empty __slots__, so instances have no
__dict__ and only these four attributes can be assigned. -/
def remotePathParentsSlots : List String := ["_pathcls", "_drv", "_root", "_parts"]

/-- Embedding of _RemotePathParents.__init__: it assigns _pathcls, _drv,
_root and _parts (all in __slots__) and then self._remote, which is not
in __slots__, so the assignment raises AttributeError. -/
def remotePathParentsInit (p : RemotePath) : Except PathError RemotePathParentsObj :=
  if remotePathParentsSlots.contains "_remote" then
    .ok { pathcls := p.cls, drv := p.drv, root := p.root, parts := p.parts, remote := p.remote }
  else .error .attributeError

/-- Embedding of the parents property: it constructs a
_RemotePathParents from self. -/
def parentsProperty (p : RemotePath) : Except PathError RemotePathParentsObj :=
  remotePathParentsInit p

/-- Embedding of _RemotePathParents.__len__ (the length the object would
report if its initializer succeeded). -/
def parentsLen (o : RemotePathParentsObj) : Nat :=
  if o.drv ≠ "" ∨ o.root ≠ "" then o.parts.length - 1 else o.parts.length

/-- Embedding of _RemotePathParents.__getitem__: indices outside
[0, len) - including every negative index - raise IndexError; otherwise
the result drops the last idx+1 parts. -/
def parentsGetItem (o : RemotePathParentsObj) (idx : Int) : Except PathError RemotePath :=
  if idx < 0 ∨ (parentsLen o : Int) ≤ idx then .error (.indexError idx)
  else
    .ok (fromParsedParts o.pathcls o.drv o.root
      (o.parts.take (o.parts.length - (idx.toNat + 1))) o.remote)

/-!  The pattern selector engine (fnmatch matching, _make_selector and
the selector classes driving glob/rglob). -/

/-- Whether a character class body matches a character: ranges written
a-b, everything else literal (trailing or leading dashes are literal, as
in the regex fnmatch.translate produces). -/
def inClass : List Char → Char → Bool
  | [], _ => false
  | a :: '-' :: b :: rest, c => (decide (a ≤ c) && decide (c ≤ b)) || inClass rest c
  | a :: rest, c => a == c || inClass rest c

/-- Scan for the closing bracket of a character class; none when the
class is unterminated. -/
def scanClassBody : List Char → Option (List Char × List Char)
  | [] => none
  | ']' :: rest => some ([], rest)
  | c :: rest => (scanClassBody rest).map (fun pr => (c :: pr.1, pr.2))

/-- Split a character class as fnmatch.translate does: an optional
leading '!' negates, a ']' right after it (or at the start) is a literal
member, and the class ends at the next ']'. -/
def splitClass (l : List Char) : Option (Bool × List Char × List Char) :=
  match l with
  | '!' :: t =>
    (match t with
     | ']' :: t2 => (scanClassBody t2).map (fun pr => (true, ']' :: pr.1, pr.2))
     | _ => (scanClassBody t).map (fun pr => (true, pr.1, pr.2)))
  | ']' :: t => (scanClassBody t).map (fun pr => (false, ']' :: pr.1, pr.2))
  | _ => (scanClassBody l).map (fun pr => (false, pr.1, pr.2))

/-- Fuelled fnmatch matcher ('*' any sequence, '?' any character,
classes in brackets, unterminated '[' literal; full match required).
Every recursive call strictly decreases pattern length + string length,
so fuel = pattern length + string length + 1 always suffices. -/
def fnmatchAux : Nat → List Char → List Char → Bool
  | 0, _, _ => false
  | _ + 1, [], s => s.isEmpty
  | fuel + 1, '*' :: ps, s =>
    fnmatchAux fuel ps s ||
      (match s with
       | [] => false
       | _ :: cs => fnmatchAux fuel ('*' :: ps) cs)
  | fuel + 1, '?' :: ps, s =>
    (match s with
     | [] => false
     | _ :: cs => fnmatchAux fuel ps cs)
  | fuel + 1, '[' :: ps, s =>
    (match splitClass ps with
     | none =>
       (match s with
        | '[' :: cs => fnmatchAux fuel ps cs
        | _ => false)
     | some pr =>
       (match s with
        | [] => false
        | c :: cs => (pr.1 != inClass pr.2.1 c) && fnmatchAux fuel pr.2.2 cs))
  | fuel + 1, p :: ps, s =>
    (match s with
     | c :: cs => p == c && fnmatchAux fuel ps cs
     | [] => false)

/-- Embedding of _flavour.compile_pattern(pat) applied to a name. -/
def fnmatchStr (pat name : String) : Bool :=
  fnmatchAux (pat.length + name.length + 1) pat.data name.data

/-- Embedding of _is_wildcard_pattern. -/
def isWildcardPat (s : String) : Bool :=
  s.data.any (fun c => c == '*' || c == '?' || c == '[')

/-- Whether a component contains a double star somewhere. -/
def hasDoubleStar : List Char → Bool
  | [] => false
  | '*' :: '*' :: _ => true
  | _ :: rest => hasDoubleStar rest

/-- Embedding of the eager selector-chain construction performed by
_make_selector: an empty component list hits pattern_path.parts[0]
(IndexError); a component containing a double star without being exactly
the double star raises ValueError; the chain is built through every
component before any matching happens. -/
def checkComponents : List String → Except PathError Unit
  | [] => .error (.indexError 0)
  | pat :: rest =>
    if pat ≠ "**" ∧ hasDoubleStar pat.data then
      .error (.valueError "Invalid pattern")
    else if rest.isEmpty then .ok ()
    else checkComponents rest

/-- The DandiPath entries scandir yields, used by the wildcard and
recursive selectors.  In the selector flow scandir is only invoked on
paths already known to be directories, so the NotADirectoryError branch
is unreachable and mapped to the empty listing. -/
def scandirPaths (p : RemotePath) : List RemotePath :=
  match scandir p with
  | .ok es =>
    es.filterMap (fun e =>
      match e with
      | .path q => some q
      | .str _ => none)
  | .error _ => []

/-- Embedding of _RecursiveWildcardSelector._iterate_directories: yield
the parent, then recurse into every child entry that is a directory.
The recursion is fuelled; the callers pass fuel exceeding the depth of
any chain of pseudo-directories derivable from the finite asset store. -/
def iterateDirectories : Nat → RemotePath → List RemotePath
  | 0, p => [p]
  | fuel + 1, p =>
    p :: (scandirPaths p).flatMap (fun entry =>
      if isDir entry then iterateDirectories fuel (makeChildRelpath p (pathName entry))
      else [])

/-- The yielded-set deduplication of _RecursiveWildcardSelector
._select_from: a result already in the set (path __eq__/__hash__) is
suppressed, otherwise yielded and added. -/
def dedupSeen : List RemotePath → List RemotePath → List RemotePath
  | _, [] => []
  | seen, x :: xs =>
    if seen.any (fun y => pathEq y x) then dedupSeen seen xs
    else x :: dedupSeen (x :: seen) xs

/-- Embedding of the _select_from methods of the selector chain for the
remaining component list: the empty list is the terminating selector,
a double-star component is the recursive selector, a component with
wildcard characters the wildcard selector, anything else the precise
selector.  dironly is true exactly when components remain after the
current one. -/
def selUnder (fuel : Nat) : List String → RemotePath → List RemotePath
  | [], p => [p]
  | pat :: rest, p =>
    if pat = "**" then
      dedupSeen [] ((iterateDirectories fuel p).flatMap (fun sp => selUnder fuel rest sp))
    else if isWildcardPat pat then
      (scandirPaths p).flatMap (fun entry =>
        if !rest.isEmpty && !isDir entry then []
        else if fnmatchStr pat (pathName entry) then
          selUnder fuel rest (makeChildRelpath p (pathName entry))
        else [])
    else
      let child := makeChildRelpath p pat
      if (if !rest.isEmpty then isDir child else dExists child) then selUnder fuel rest child
      else []

/-- Embedding of _Selector.select_from: nothing unless the starting
point is a directory. -/
def selSelectFrom (fuel : Nat) (parts : List String) (p : RemotePath) : List RemotePath :=
  if isDir p then selUnder fuel parts p else []

/-- Fuel large enough for every directory recursion over the finite
asset store (tree depth is bounded by the total length of the asset path
strings). -/
def globFuel (p : RemotePath) : Nat :=
  1 + (match p.remote with
       | none => 0
       | some ds => ds.assets.foldl (fun n a => n + a.length + 1) 0)

/-- Embedding of RemotePath.glob: empty patterns raise ValueError,
anchored patterns raise NotImplementedError, then the selector chain is
built (surfacing malformed components) and run from self. -/
def glob (p : RemotePath) (pattern : String) : Except PathError (List RemotePath) :=
  if pattern = "" then .error (.valueError "Unacceptable pattern")
  else
    let pr := parseParts [pattern]
    if pr.1 ≠ "" then .error (.notImplementedError "Non-relative patterns are unsupported")
    else
      match checkComponents pr.2 with
      | .error e => .error e
      | .ok _ => .ok (selSelectFrom (globFuel p) pr.2 p)

/-- Embedding of RemotePath.rglob: no empty-pattern check; anchored
patterns raise NotImplementedError; the pattern is joined below a
double-star component and the chain run from self. -/
def rglob (p : RemotePath) (pattern : String) : Except PathError (List RemotePath) :=
  let pr := parseParts [pattern]
  if pr.1 ≠ "" then .error (.notImplementedError "Non-relative patterns are unsupported")
  else
    match checkComponents ("**" :: pr.2) with
    | .error e => .error e
    | .ok _ => .ok (selSelectFrom (globFuel p) ("**" :: pr.2) p)

/-!  The slab aggregation loop of spiminfo.slab_info.  Only the pieces
the claim about FOV depends on are modelled: per chunk, mn1 is the
origin [0, 0, 0] and mx1 the trailing three shape entries, both shifted
by the chunk's offset when present; the loop accumulates element-wise
minima and maxima, and the final comprehension computes mx - mn over the
accumulators (its mx1, mn1 are fresh bindings over zip(mx, mn)). -/

/-- The data slab_info reads from one chunk: the trailing shape entries
and the optional Shift offsets (numbers modelled as rationals). -/
structure ChunkInfo where
  shape : List ℚ
  shift : Option (List ℚ)
deriving DecidableEq

/-- Per-chunk mn1 = [0., 0., 0.], plus the offset when present. -/
def chunkMn1 (c : ChunkInfo) : List ℚ :=
  match c.shift with
  | none => [0, 0, 0]
  | some off => List.zipWith (· + ·) [0, 0, 0] off

/-- Per-chunk mx1 = list(Shape[-3:]), plus the offset when present. -/
def chunkMx1 (c : ChunkInfo) : List ℚ :=
  let m := c.shape.drop (c.shape.length - 3)
  match c.shift with
  | none => m
  | some off => List.zipWith (· + ·) m off

/-- One accumulation step for the minima: min(x, y) if x is not None
else y, element-wise (zip truncates to the shorter list). -/
def accMin (acc : List (Option ℚ)) (v : List ℚ) : List (Option ℚ) :=
  List.zipWith (fun x y =>
    match x with
    | none => some y
    | some x' => some (min x' y)) acc v

/-- One accumulation step for the maxima. -/
def accMax (acc : List (Option ℚ)) (v : List ℚ) : List (Option ℚ) :=
  List.zipWith (fun x y =>
    match x with
    | none => some y
    | some x' => some (max x' y)) acc v

/-- The for-loop of slab_info restricted to the mn/mx accumulators. -/
def slabLoop : List ChunkInfo → List (Option ℚ) → List (Option ℚ) →
    List (Option ℚ) × List (Option ℚ)
  | [], mn, mx => (mn, mx)
  | c :: rest, mn, mx => slabLoop rest (accMin mn (chunkMn1 c)) (accMax mx (chunkMx1 c))

/-- Turn the element-wise differences into a list, or none when any
entry is still None (Python would raise a TypeError subtracting None,
which only happens when the folder holds no chunks). -/
def seqOpt : List (Option ℚ) → Option (List ℚ)
  | [] => some []
  | none :: _ => none
  | some x :: rest => (seqOpt rest).map (fun l => x :: l)

/-- The FOV slab_info stores: [mx1 - mn1 for mx1, mn1 in zip(mx, mn)]
evaluated on the final accumulators mx, mn. -/
def slabFOV (chunks : List ChunkInfo) : Option (List ℚ) :=
  let acc := slabLoop chunks [none, none, none] [none, none, none]
  seqOpt (List.zipWith (fun a b =>
    match a, b with
    | some x, some y => some (x - y)
    | _, _ => none) acc.2 acc.1)

/-- The FOV the claim alleges: mx1 - mn1 taken from the last iterated
chunk only. -/
def claimedLastChunkFOV (chunks : List ChunkInfo) : Option (List ℚ) :=
  (chunks.getLast?).map (fun c => List.zipWith (· - ·) (chunkMx1 c) (chunkMn1 c))

/-- Specification-level FOV: per axis, the maximum of the per-chunk mx1
over all chunks minus the minimum of the per-chunk mn1 over all chunks
(none when there are no chunks). -/
def specFOV : List ChunkInfo → Option (List ℚ)
  | [] => none
  | c :: rest =>
    some (List.zipWith (· - ·)
      (rest.foldl (fun acc d => List.zipWith max acc (chunkMx1 d)) (chunkMx1 c))
      (rest.foldl (fun acc d => List.zipWith min acc (chunkMn1 d)) (chunkMn1 c)))

/-!  Specification-level formulations used to characterize iterdir and
scandir, and well-formedness predicates for paths. -/

/-- First-seen deduplication of the subdirectory labels, written in the
filtering style: file labels (inl) pass through; after a directory label
(inr) every later occurrence of the same segment is removed. -/
def specDedupF : List (Sum String String) → List (Sum String String)
  | [] => []
  | .inl s :: rest => .inl s :: specDedupF rest
  | .inr s :: rest => .inr s :: specDedupF (rest.filter (fun e => e != Sum.inr s))
termination_by l => l.length
decreasing_by
  · simp
  · simp only [List.length_cons]
    exact Nat.lt_succ_of_le (List.length_filter_le _ _)

/-- Keep the labels whose directory segment has not been seen yet. -/
def keepInr (seen : List String) : Sum String String → Bool
  | .inl _ => true
  | .inr s => !(seen.contains s)

/-- What iterdir yields for a label: the final part of the asset path
for a file, the bare segment for a pseudo-directory (strings in both
cases). -/
def iterEntry : Sum String String → DirEntry
  | .inl a => .str ((remotePathNew PathCls.dandiPath [.str a] none).parts.getLastD "")
  | .inr seg => .str seg

/-- What scandir yields for a label: the full asset path carrying the
directory's remote for a file, the joined pseudo-directory path for a
directory. -/
def scanEntry (p : RemotePath) : Sum String String → DirEntry
  | .inl a => .path (remotePathNew PathCls.dandiPath [.str a] p.remote)
  | .inr seg => .path (makeChild p [.str seg])

/-- A valid single path segment: nonempty, not ".", and free of the
separator - exactly the strings parse_parts stores as parts. -/
def validSeg (s : String) : Bool :=
  s != "" && s != "." && !(s.data.contains '/')

/-- A relative, well-formed path: no drive or root and every part a
valid segment. -/
def relativeValid (p : RemotePath) : Prop :=
  p.drv = "" ∧ p.root = "" ∧ ∀ s ∈ p.parts, validSeg s = true

instance (p : RemotePath) : Decidable (relativeValid p) := by
  unfold relativeValid
  infer_instance

/-- A well-formed path: its stored parts re-parse to its stored root and
parts (true of every path the constructors produce). -/
def WFPath (p : RemotePath) : Bool :=
  p.drv == "" && (parseParts p.parts).1 == p.root &&
    mkParts "" (parseParts p.parts).1 (parseParts p.parts).2 == p.parts

/-!  Concrete fixtures used by counterexamples and witnesses. -/

/-- The asset store of the spec's scenario. -/
def demoDS : RemoteDandiset :=
  { assets := ["sub-01/ses-1/a.h5", "sub-01/ses-1/a.json", "sub-01/ses-2/b.h5"] }

/-- The path sub-01 bound to the scenario store. -/
def demoP : RemotePath :=
  remotePathNew PathCls.dandiPath [.str "sub-01"] (some demoDS)

/-- A store holding x.h5 at depths 0, 2 and 3 below root. -/
def deepDS : RemoteDandiset :=
  { assets := ["root/x.h5", "root/a/b/x.h5", "root/a/b/c/x.h5"] }

/-- The path root bound to the deep store. -/
def deepP : RemotePath :=
  remotePathNew PathCls.dandiPath [.str "root"] (some deepDS)

/-- A path with no remote handle attached. -/
def noRemoteP : RemotePath :=
  remotePathNew PathCls.dandiPath [.str "sub-01/ses-1/a.h5"] none

/-!  Claim C2: is_file. -/

/-- C2 counterexample: the claim says is_file never raises, including
for a path with no remote handle attached; on such a path the code
dereferences None.get_asset_by_path and raises an AttributeError that
the except NotFoundError clause does not catch. -/
theorem c2_is_file_no_remote_raises :
    isFile noRemoteP = .error PathError.attributeError := rfl

/-- C2 (amended): with a remote handle attached, is_file is true iff
the point lookup resolves an asset at exactly the path's string form,
false when absent, and never raises; with no remote handle it raises an
AttributeError instead of returning false. -/
theorem c2_is_file_amended (p : RemotePath) (ds : RemoteDandiset) :
    (p.remote = some ds →
      (isFile p = .ok true ↔ strOf p ∈ ds.assets) ∧ ∀ e, isFile p ≠ .error e)
    ∧ (p.remote = none → isFile p = .error PathError.attributeError) := by
  constructor
  · intro h
    constructor
    · simp [isFile, h, List.contains, List.elem_iff]
    · intro e
      simp [isFile, h]
  · intro h
    simp [isFile, h]

/-- Witness for C2: the amended statement at the scenario store. -/
theorem c2_is_file_amended_witness :
    demoDS.assets = ["sub-01/ses-1/a.h5", "sub-01/ses-1/a.json", "sub-01/ses-2/b.h5"]
    ∧ (isFile demoP = .ok true ↔ strOf demoP ∈ demoDS.assets) :=
  ⟨rfl, ((c2_is_file_amended demoP demoDS).1 rfl).1⟩

/-!  Claim C3: the FOV computed by slab_info. -/

/-- C3 counterexample: on two chunks of shape [10,10,10], the second
shifted by [5,0,0], the code stores FOV [15,10,10] - the accumulated
max minus min - while the value the claim alleges (mx1 - mn1 of the last
iterated chunk) is [10,10,10]. -/
theorem c3_fov_counterexample :
    slabFOV [⟨[10, 10, 10], none⟩, ⟨[10, 10, 10], some [5, 0, 0]⟩] = some [15, 10, 10]
    ∧ claimedLastChunkFOV [⟨[10, 10, 10], none⟩, ⟨[10, 10, 10], some [5, 0, 0]⟩]
        = some [10, 10, 10]
    ∧ slabFOV [⟨[10, 10, 10], none⟩, ⟨[10, 10, 10], some [5, 0, 0]⟩]
        ≠ claimedLastChunkFOV [⟨[10, 10, 10], none⟩, ⟨[10, 10, 10], some [5, 0, 0]⟩] := by
  refine ⟨?_, ?_, ?_⟩ <;>
    norm_num [slabFOV, slabLoop, accMin, accMax, chunkMn1, chunkMx1, seqOpt,
      claimedLastChunkFOV, min_def, max_def]

theorem accMin_map_some (a : List ℚ) : ∀ v : List ℚ,
    accMin (a.map some) v = (List.zipWith min a v).map some := by
  induction a with
  | nil => intro v; simp [accMin]
  | cons x xs ih =>
    intro v
    cases v with
    | nil => simp [accMin]
    | cons y ys => simpa [accMin] using ih ys

theorem accMax_map_some (a : List ℚ) : ∀ v : List ℚ,
    accMax (a.map some) v = (List.zipWith max a v).map some := by
  induction a with
  | nil => intro v; simp [accMax]
  | cons x xs ih =>
    intro v
    cases v with
    | nil => simp [accMax]
    | cons y ys => simpa [accMax] using ih ys

theorem slabLoop_map_some : ∀ (rest : List ChunkInfo) (a b : List ℚ),
    slabLoop rest (a.map some) (b.map some)
      = ((rest.foldl (fun acc d => List.zipWith min acc (chunkMn1 d)) a).map some,
         (rest.foldl (fun acc d => List.zipWith max acc (chunkMx1 d)) b).map some) := by
  intro rest
  induction rest with
  | nil => intro a b; rfl
  | cons c cs ih =>
    intro a b
    simpa [slabLoop, accMin_map_some, accMax_map_some]
      using ih (List.zipWith min a (chunkMn1 c)) (List.zipWith max b (chunkMx1 c))

theorem zipSub_map_some : ∀ x y : List ℚ,
    List.zipWith (fun a b =>
        match a, b with
        | some u, some v => some (u - v)
        | _, _ => none) (x.map some) (y.map some)
      = (List.zipWith (fun u v => u - v) x y).map some := by
  intro x
  induction x with
  | nil => intro y; simp
  | cons u us ih =>
    intro y
    cases y with
    | nil => simp
    | cons v vs => simpa using ih vs

theorem seqOpt_map_some : ∀ l : List ℚ, seqOpt (l.map some) = some l := by
  intro l
  induction l with
  | nil => rfl
  | cons x xs ih => simp [seqOpt, ih]

/-- C3 (amended): slab_info computes each FOV entry from the
accumulated per-axis min and max across all chunks (the comprehension's
mx1, mn1 are fresh bindings over zip(mx, mn)), not from the last
iterated chunk. -/
theorem c3_fov_accumulated (chunks : List ChunkInfo)
    (h : ∀ c ∈ chunks, (chunkMn1 c).length = 3 ∧ (chunkMx1 c).length = 3) :
    slabFOV chunks = specFOV chunks := by
  cases chunks with
  | nil => rfl
  | cons c cs =>
    obtain ⟨hn, hx⟩ := h c (List.mem_cons_self c cs)
    obtain ⟨a1, a2, a3, hveq⟩ := List.length_eq_three.mp hn
    obtain ⟨b1, b2, b3, hweq⟩ := List.length_eq_three.mp hx
    have h1 : accMin [none, none, none] (chunkMn1 c) = (chunkMn1 c).map some := by
      rw [hveq]; rfl
    have h2 : accMax [none, none, none] (chunkMx1 c) = (chunkMx1 c).map some := by
      rw [hweq]; rfl
    simp only [slabFOV, slabLoop, h1, h2, slabLoop_map_some, zipSub_map_some,
      seqOpt_map_some, specFOV]

/-- Witness for C3: the amended statement at the counterexample input. -/
theorem c3_fov_accumulated_witness :
    (∀ c ∈ [(⟨[10, 10, 10], none⟩ : ChunkInfo), ⟨[10, 10, 10], some [5, 0, 0]⟩],
        (chunkMn1 c).length = 3 ∧ (chunkMx1 c).length = 3)
    ∧ slabFOV [⟨[10, 10, 10], none⟩, ⟨[10, 10, 10], some [5, 0, 0]⟩]
        = specFOV [⟨[10, 10, 10], none⟩, ⟨[10, 10, 10], some [5, 0, 0]⟩] :=
  ⟨by decide, c3_fov_accumulated _ (by decide)⟩

/-!  Claim C8: the parents sequence. -/

/-- C8: the claim describes parents as the lazily produced ancestor
sequence, but _RemotePathParents.__init__ assigns self._remote, which is
missing from its __slots__ (and every collections.abc base declares
empty slots), so accessing p.parents raises AttributeError for every
path before any ancestor can be produced. -/
theorem c8_parents_attribute_error :
    (∀ p : RemotePath, parentsProperty p = .error PathError.attributeError)
    ∧ parentsProperty demoP = .error PathError.attributeError :=
  ⟨fun _ => rfl, rfl⟩

/-!  Claim C9: equality and hash ignore the remote handle. -/

/-- C9: path equality and hash are functions of the normalized
(drive, root, parts) tuple alone - equal tuples give equal paths and
hashes, and replacing only the remote handle changes neither the
equality relation to any other path nor the hash. -/
theorem c9_eq_hash_tuple (a b : RemotePath) (r : Option RemoteDandiset) :
    ((a.drv, a.root, a.parts) = (b.drv, b.root, b.parts) →
      pathEq a b = true ∧ pathHash a = pathHash b)
    ∧ pathEq { a with remote := r } b = pathEq a b
    ∧ pathEq b { a with remote := r } = pathEq b a
    ∧ pathHash { a with remote := r } = pathHash a := by
  refine ⟨fun h => ?_, rfl, rfl, rfl⟩
  have hp : a.parts = b.parts := congrArg (fun t => t.2.2) h
  exact ⟨by simp [pathEq, casefoldParts, hp], by simp [pathHash, casefoldParts, hp]⟩

/-- A fixture path equal to demoP's value but with no remote. -/
def demoPBare : RemotePath :=
  { drv := "", root := "", parts := ["sub-01"], remote := none, cls := PathCls.dandiPath }

/-- Witness for C9: two paths identical up to the remote handle are
equal and hash equal. -/
theorem c9_eq_hash_tuple_witness :
    (demoPBare.drv, demoPBare.root, demoPBare.parts) = (demoP.drv, demoP.root, demoP.parts)
    ∧ pathEq demoPBare demoP = true ∧ pathHash demoPBare = pathHash demoP :=
  ⟨rfl, ((c9_eq_hash_tuple demoPBare demoP none).1 rfl).1,
    ((c9_eq_hash_tuple demoPBare demoP none).1 rfl).2⟩

/-!  Claim C10: the public constructor. -/

/-- C10: RemotePath.__new__ sets the result's remote to exactly its
remote keyword (default None), discarding any remote carried by
path-like positional arguments (which _from_parts by itself would have
inherited), and always instantiates DandiPath whatever class was
invoked. -/
theorem c10_constructor_remote (c : PathCls) (args : List PathArg)
    (r : Option RemoteDandiset) (p : RemotePath) :
    (remotePathNew c args r).remote = r
    ∧ (remotePathNew c args r).cls = PathCls.dandiPath
    ∧ (remotePathNew c args r).parts = (fromParts PathCls.dandiPath args none).parts
    ∧ (fromParts PathCls.dandiPath [PathArg.path p] none).remote = p.remote := by
  refine ⟨rfl, rfl, rfl, ?_⟩
  cases hp : p.remote <;> simp [fromParts, argsRemote, hp, Option.orElse]

/-!  Parsing lemmas shared by the glob/rglob claims. -/

theorem takeWhile_nil_dropWhile {l : List Char}
    (h : l.takeWhile (fun c => c == '/') = []) :
    l.dropWhile (fun c => c == '/') = l := by
  cases l with
  | nil => rfl
  | cons c t =>
    by_cases hc : (c == '/') = true
    · simp [List.takeWhile_cons, hc] at h
    · simp [List.dropWhile_cons, hc]

theorem parseParts_single (s : String) : parseParts [s] = parseOnePart s := by
  simp [parseParts]

theorem parseOnePart_simple (s : String)
    (h : s.data.takeWhile (fun c => c == '/') = []) :
    parseOnePart s = ("", parseRelChars s.data) := by
  simp [parseOnePart, h, takeWhile_nil_dropWhile h]

theorem root_empty_takeWhile {s : String} (h : (parseOnePart s).1 = "") :
    s.data.takeWhile (fun c => c == '/') = [] := by
  by_cases hl : (s.data.takeWhile (fun c => c == '/')).length = 0
  · exact List.length_eq_zero.mp hl
  · exfalso
    simp only [parseOnePart] at h
    split_ifs at h with h2 h3
    · exact hl (by simpa using h2)
    · exact absurd h (by decide)
    · exact absurd h (by decide)

theorem splitSep_dstar (d : List Char) :
    splitSep ('*' :: '*' :: '/' :: d) = ['*', '*'] :: splitSep d := rfl

theorem parseRelChars_dstar (d : List Char) :
    parseRelChars ('*' :: '*' :: '/' :: d) = "**" :: parseRelChars d := by
  simp [parseRelChars, splitSep_dstar]

theorem dstar_concat_data (s : String) :
    ("**/" ++ s).data = '*' :: '*' :: '/' :: s.data := by
  rw [String.data_append]
  rfl

theorem dstar_concat_ne_empty (s : String) : ("**/" ++ s) ≠ "" := by
  intro hcontra
  have h := congrArg String.data hcontra
  rw [dstar_concat_data] at h
  simp at h

theorem parse_dstar (s : String) (h : (parseParts [s]).1 = "") :
    parseParts ["**/" ++ s] = ("", "**" :: (parseParts [s]).2) := by
  rw [parseParts_single] at h ⊢
  rw [parseParts_single]
  have h0 : ("**/" ++ s).data.takeWhile (fun c => c == '/') = [] := by
    rw [dstar_concat_data]; rfl
  rw [parseOnePart_simple _ h0, dstar_concat_data, parseRelChars_dstar,
    parseOnePart_simple _ (root_empty_takeWhile h)]

theorem parse_empty_root : (parseParts [""]).1 = "" := rfl

/-- Shared helper: both glob and rglob reject a pattern that parses with
a root. -/
theorem glob_rglob_nonrelative (p : RemotePath) (s : String)
    (h : (parseParts [s]).1 ≠ "") :
    glob p s = .error (.notImplementedError "Non-relative patterns are unsupported")
    ∧ rglob p s = .error (.notImplementedError "Non-relative patterns are unsupported") := by
  have hs : s ≠ "" := by
    intro hcontra
    exact h (hcontra ▸ parse_empty_root)
  constructor
  · simp only [glob, if_neg hs]
    rw [if_pos h]
  · simp only [rglob]
    rw [if_pos h]

/-!  Claim C4: rglob/glob equivalence. -/

/-- C4: for every relative pattern, rglob(s) produces exactly what
glob("**/" + s) produces (the same parsed component chain is built and
run from the same start), and a pattern carrying a root is rejected as
unsupported by both glob and rglob. -/
theorem c4_rglob_glob_equiv (p : RemotePath) (s : String) :
    ((parseParts [s]).1 = "" → rglob p s = glob p ("**/" ++ s))
    ∧ ((parseParts [s]).1 ≠ "" →
        glob p s = .error (.notImplementedError "Non-relative patterns are unsupported")
        ∧ rglob p s = .error (.notImplementedError "Non-relative patterns are unsupported")) := by
  refine ⟨fun h => ?_, fun h => glob_rglob_nonrelative p s h⟩
  simp only [glob, if_neg (dstar_concat_ne_empty s), parse_dstar s h, rglob]
  rw [if_neg (fun hc => hc h)]
  simp

/-- Witness for C4: the equivalence and the rejection at concrete
patterns over the scenario store. -/
theorem c4_rglob_glob_equiv_witness :
    ((parseParts ["a.h5"]).1 = "" ∧ rglob demoP "a.h5" = glob demoP "**/a.h5")
    ∧ ((parseParts ["/a"]).1 ≠ ""
        ∧ glob demoP "/a" = .error (.notImplementedError "Non-relative patterns are unsupported")) :=
  ⟨⟨rfl, (c4_rglob_glob_equiv demoP "a.h5").1 rfl⟩,
   ⟨by decide, ((c4_rglob_glob_equiv demoP "/a").2 (by decide)).1⟩⟩

/-!  Claim C5: deduplication of recursive-wildcard results. -/

theorem dedupSeen_not_seen : ∀ (l seen : List RemotePath) (x : RemotePath),
    x ∈ dedupSeen seen l → seen.any (fun y => pathEq y x) = false := by
  intro l
  induction l with
  | nil => intro seen x hx; cases hx
  | cons a xs ih =>
    intro seen x hx
    by_cases h : seen.any (fun y => pathEq y a) = true
    · rw [show dedupSeen seen (a :: xs) = dedupSeen seen xs from by simp [dedupSeen, h]] at hx
      exact ih seen x hx
    · rw [show dedupSeen seen (a :: xs) = a :: dedupSeen (a :: seen) xs from by
        simp [dedupSeen, h]] at hx
      rcases List.mem_cons.mp hx with rfl | hx'
      · exact Bool.eq_false_iff.mpr h
      · have := ih (a :: seen) x hx'
        simp only [List.any_cons, Bool.or_eq_false_iff] at this
        exact this.2

theorem dedupSeen_pairwise : ∀ (l seen : List RemotePath),
    (dedupSeen seen l).Pairwise (fun a b => pathEq a b = false) := by
  intro l
  induction l with
  | nil => intro seen; simp [dedupSeen]
  | cons a xs ih =>
    intro seen
    by_cases h : seen.any (fun y => pathEq y a) = true
    · rw [show dedupSeen seen (a :: xs) = dedupSeen seen xs from by simp [dedupSeen, h]]
      exact ih seen
    · rw [show dedupSeen seen (a :: xs) = a :: dedupSeen (a :: seen) xs from by
        simp [dedupSeen, h]]
      refine List.Pairwise.cons (fun b hb => ?_) (ih (a :: seen))
      have := dedupSeen_not_seen xs (a :: seen) b hb
      simp only [List.any_cons, Bool.or_eq_false_iff] at this
      exact this.1

/-- C5: a select_from of the recursive-wildcard selector never yields
the same (normalized-equal) path twice, whatever the store, the fuel or
the remaining pattern; and over a tree with x.h5 at depths 0, 2 and 3
the pattern double-star slash x.h5 yields exactly those three distinct
paths. -/
theorem c5_recursive_dedup :
    (∀ (fuel : Nat) (rest : List String) (p : RemotePath),
      (selSelectFrom fuel ("**" :: rest) p).Pairwise (fun a b => pathEq a b = false))
    ∧ Except.map (fun l => l.map strOf) (glob deepP "**/x.h5")
        = .ok ["root/x.h5", "root/a/b/x.h5", "root/a/b/c/x.h5"]
    ∧ (["root/x.h5", "root/a/b/x.h5", "root/a/b/c/x.h5"] : List String).Nodup := by
  refine ⟨?_, by rfl, by decide⟩
  intro fuel rest p
  unfold selSelectFrom
  by_cases h : isDir p = true
  · rw [if_pos h]
    simp only [selUnder, if_pos rfl]
    exact dedupSeen_pairwise _ _
  · rw [if_neg h]
    exact List.Pairwise.nil

/-!  Claim C6: rejection of malformed patterns. -/

theorem checkComponents_bad : ∀ l : List String,
    (∃ t ∈ l, t ≠ "**" ∧ hasDoubleStar t.data = true) →
    checkComponents l = .error (.valueError "Invalid pattern") := by
  intro l
  induction l with
  | nil => rintro ⟨t, ht, _⟩; cases ht
  | cons pat rest ih =>
    rintro ⟨t, ht, h1, h2⟩
    by_cases hb : pat ≠ "**" ∧ hasDoubleStar pat.data
    · simp [checkComponents, hb]
    · have htr : t ∈ rest := by
        rcases List.mem_cons.mp ht with rfl | hmem
        · exact absurd ⟨h1, h2⟩ hb
        · exact hmem
      have hrne : rest.isEmpty = false := by
        cases rest with
        | nil => cases htr
        | cons _ _ => rfl
      rw [show checkComponents (pat :: rest) = checkComponents rest from by
        simp [checkComponents, hb, hrne]]
      exact ih ⟨t, htr, h1, h2⟩

/-- C6 counterexample: rglob does not reject the empty pattern - it
runs it as a bare double-star chain and yields the subtree's
directories. -/
theorem c6_rglob_empty_accepted :
    Except.map (fun l => l.map strOf) (rglob demoP "")
      = .ok ["sub-01", "sub-01/ses-1", "sub-01/ses-2"] := by rfl

/-- C6 (amended): an anchored pattern and a pattern with a double star
embedded in a component are rejected immediately, before any matching,
by both glob and rglob; the empty pattern is rejected by glob only,
while rglob accepts it (treating it as a bare double-star). -/
theorem c6_malformed_amended (p : RemotePath) (s : String) :
    glob p "" = .error (.valueError "Unacceptable pattern")
    ∧ ((parseParts [s]).1 ≠ "" →
        glob p s = .error (.notImplementedError "Non-relative patterns are unsupported")
        ∧ rglob p s = .error (.notImplementedError "Non-relative patterns are unsupported"))
    ∧ ((parseParts [s]).1 = "" → s ≠ "" →
        (∃ t ∈ (parseParts [s]).2, t ≠ "**" ∧ hasDoubleStar t.data = true) →
        glob p s = .error (.valueError "Invalid pattern")
        ∧ rglob p s = .error (.valueError "Invalid pattern")) := by
  refine ⟨rfl, fun h => glob_rglob_nonrelative p s h, fun h hs hbad => ?_⟩
  have hchk := checkComponents_bad (parseParts [s]).2 hbad
  have hchk2 : checkComponents ("**" :: (parseParts [s]).2)
      = .error (.valueError "Invalid pattern") := by
    apply checkComponents_bad
    obtain ⟨t, ht, h1, h2⟩ := hbad
    exact ⟨t, List.mem_cons_of_mem _ ht, h1, h2⟩
  constructor
  · simp only [glob, if_neg hs]
    rw [if_neg (by simpa using h), hchk]
  · simp only [rglob]
    rw [if_neg (by simpa using h), hchk2]

/-- Witness for C6: the amended statement at concrete malformed
patterns. -/
theorem c6_malformed_amended_witness :
    ((parseParts ["/abs"]).1 ≠ ""
      ∧ rglob demoP "/abs" = .error (.notImplementedError "Non-relative patterns are unsupported"))
    ∧ ((parseParts ["a**b/c"]).1 = "" ∧ ("a**b/c" : String) ≠ ""
      ∧ glob demoP "a**b/c" = .error (.valueError "Invalid pattern")) :=
  ⟨⟨by decide, ((c6_malformed_amended demoP "/abs").2.1 (by decide)).2⟩,
   ⟨by decide, by decide,
     ((c6_malformed_amended demoP "a**b/c").2.2 (by decide) (by decide)
       ⟨"a**b", by decide, by decide, by decide⟩).1⟩⟩

/-!  Claim C7: relative_to as a left inverse of join. -/

theorem wf_spec {p : RemotePath} (h : WFPath p = true) :
    p.drv = "" ∧ (parseParts p.parts).1 = p.root
      ∧ mkParts "" p.root (parseParts p.parts).2 = p.parts := by
  simp only [WFPath, Bool.and_eq_true, beq_iff_eq] at h
  obtain ⟨⟨h1, h2⟩, h3⟩ := h
  exact ⟨h1, h2, h2 ▸ h3⟩

theorem parseParts_eta {p : RemotePath} (h : WFPath p = true) :
    parseParts p.parts = (p.root, (parseParts p.parts).2) := by
  obtain ⟨-, h2, -⟩ := wf_spec h
  exact Prod.ext h2 rfl

/-- A well-formed path with empty root re-parses to exactly its own
parts. -/
theorem parseParts_self {p : RemotePath} (h : WFPath p = true) (hr : p.root = "") :
    parseParts p.parts = ("", p.parts) := by
  obtain ⟨-, h2, h3⟩ := wf_spec h
  rw [hr] at h2 h3
  rw [show mkParts "" "" (parseParts p.parts).2 = (parseParts p.parts).2 from by
    simp [mkParts]] at h3
  exact Prod.ext h2 (by rw [h3])

theorem makeChild_relParts (p rel : RemotePath) (h1 : parseParts rel.parts = ("", rel.parts)) :
    makeChild p [.path rel]
      = fromParsedParts p.cls p.drv p.root (p.parts ++ rel.parts)
          (p.remote.orElse (fun _ => argsRemote [.path rel])) := by
  simp [makeChild, argStrings, h1, mkParts, joinParsedParts]

/-- C7: relative_to is a left inverse of join - joining a relative,
well-formed rel onto p and taking relative_to p gives back a path equal
to rel - and whenever other's absolute part sequence is not a prefix of
self's, relative_to fails with the not-relative error carrying both
formatted path strings. -/
theorem c7_relative_to_left_inverse (p rel o : RemotePath) :
    (WFPath p = true → WFPath rel = true → rel.root = "" →
      (relativeTo1 (makeChild p [.path rel]) p).map (fun q => pathEq q rel) = .ok true)
    ∧ (WFPath p = true → WFPath o = true →
      ¬ (absPartsOf "" o.root o.parts <+: absPartsOf p.drv p.root p.parts) →
      relativeTo1 p o
        = .error (.notRelative (strOf p) (formatParsedParts "" o.root o.parts))) := by
  constructor
  · intro hp hrel hroot
    obtain ⟨hpd, hpr, hpm⟩ := wf_spec hp
    obtain ⟨tl, htl⟩ : ∃ tl, parseParts p.parts = (p.root, tl) :=
      ⟨(parseParts p.parts).2, parseParts_eta hp⟩
    have hpm' : mkParts "" p.root tl = p.parts := by
      have := hpm; rw [htl] at this; exact this
    rw [makeChild_relParts p rel (parseParts_self hrel hroot)]
    have habs : absPartsOf p.drv p.root (p.parts ++ rel.parts)
        = absPartsOf "" p.root p.parts ++ rel.parts := by
      by_cases hr : p.root = ""
      · simp [absPartsOf, hr]
      · obtain ⟨tl2, hpp⟩ : ∃ tl2, p.parts = p.root :: tl2 :=
          ⟨tl, by rw [← hpm']; simp [mkParts, hr]⟩
        rw [hpd, hpp]
        simp [absPartsOf, hr]
    simp only [relativeTo1, relativeTo, fromParsedParts, List.isEmpty_cons,
      List.flatMap_cons, argStrings, List.flatMap_nil, List.append_nil,
      htl, hpm', habs]
    have hC : ¬ (if (absPartsOf "" p.root p.parts).length = 0
        then p.root ≠ "" ∨ p.drv ≠ ""
        else (absPartsOf "" p.root p.parts ++ rel.parts).take
              (absPartsOf "" p.root p.parts).length
            ≠ absPartsOf "" p.root p.parts) := by
      by_cases hn : (absPartsOf "" p.root p.parts).length = 0
      · rw [if_pos hn]
        have h0 : absPartsOf "" p.root p.parts = [] := List.length_eq_zero.mp hn
        have hr0 : p.root = "" := by
          by_contra hr
          rw [show absPartsOf "" p.root p.parts = ["", p.root] ++ p.parts.drop 1 from by
            simp [absPartsOf, hr]] at h0
          cases h0
        push_neg
        exact ⟨hr0, hpd⟩
      · rw [if_neg hn]
        intro hne
        exact hne (List.take_left _ _)
    rw [if_neg hC]
    simp only [Except.map, List.drop_left]
    simp [pathEq, casefoldParts]
  · intro hp ho hnp
    obtain ⟨hpd, -, -⟩ := wf_spec hp
    obtain ⟨tlo, htlo⟩ : ∃ t, parseParts o.parts = (o.root, t) :=
      ⟨(parseParts o.parts).2, parseParts_eta ho⟩
    have hom : mkParts "" o.root tlo = o.parts := by
      have := (wf_spec ho).2.2; rw [htlo] at this; exact this
    simp only [relativeTo1, relativeTo, List.isEmpty_cons, List.flatMap_cons, argStrings,
      List.flatMap_nil, List.append_nil, htlo, hom]
    have hC : (if (absPartsOf "" o.root o.parts).length = 0
        then p.root ≠ "" ∨ p.drv ≠ ""
        else (absPartsOf p.drv p.root p.parts).take (absPartsOf "" o.root o.parts).length
            ≠ absPartsOf "" o.root o.parts) := by
      by_cases hn : (absPartsOf "" o.root o.parts).length = 0
      · exfalso
        apply hnp
        rw [List.length_eq_zero.mp hn]
        exact List.nil_prefix
      · rw [if_neg hn]
        intro heq
        exact hnp (heq ▸ List.take_prefix _ _)
    rw [if_pos hC]
    simp

/-- Fixture: the path a. -/
def c7pa : RemotePath := remotePathNew PathCls.dandiPath [.str "a"] none

/-- Fixture: the relative path b/c. -/
def c7rel : RemotePath := remotePathNew PathCls.dandiPath [.str "b/c"] none

/-- Fixture: the path a/b. -/
def c7pb : RemotePath := remotePathNew PathCls.dandiPath [.str "a/b"] none

/-- Fixture: the path c, not an ancestor of a/b. -/
def c7o : RemotePath := remotePathNew PathCls.dandiPath [.str "c"] none

/-- Witness for C7: both halves at concrete paths. -/
theorem c7_relative_to_left_inverse_witness :
    (WFPath c7pa = true ∧ WFPath c7rel = true ∧ c7rel.root = ""
      ∧ (relativeTo1 (makeChild c7pa [.path c7rel]) c7pa).map (fun q => pathEq q c7rel)
          = .ok true)
    ∧ (WFPath c7pb = true ∧ WFPath c7o = true
      ∧ ¬ (absPartsOf "" c7o.root c7o.parts <+: absPartsOf c7pb.drv c7pb.root c7pb.parts)
      ∧ relativeTo1 c7pb c7o
          = .error (.notRelative (strOf c7pb) (formatParsedParts "" c7o.root c7o.parts))) :=
  ⟨⟨by decide, by decide, by decide,
     (c7_relative_to_left_inverse c7pa c7rel c7o).1 (by decide) (by decide) (by decide)⟩,
   ⟨by decide, by decide, by decide,
     (c7_relative_to_left_inverse c7pb c7rel c7o).2 (by decide) (by decide) (by decide)⟩⟩

/-!  Claim C1: directory iteration.  Segment-validity lemmas first. -/

theorem splitSep_ne_nil : ∀ l : List Char, splitSep l ≠ [] := by
  intro l
  induction l with
  | nil => simp [splitSep]
  | cons c rest ih =>
    by_cases hc : (c == '/') = true
    · simp [splitSep, hc]
    · simp only [splitSep, hc]
      cases hsp : splitSep rest with
      | nil => simp
      | cons g gs => simp

theorem splitSep_no_slash : ∀ l : List Char, ∀ g ∈ splitSep l, '/' ∉ g := by
  intro l
  induction l with
  | nil =>
    intro g hg
    simp [splitSep] at hg
    subst hg
    simp
  | cons c rest ih =>
    intro g hg
    by_cases hc : (c == '/') = true
    · rw [show splitSep (c :: rest) = [] :: splitSep rest from by simp [splitSep, hc]] at hg
      rcases List.mem_cons.mp hg with rfl | hg'
      · simp
      · exact ih g hg'
    · cases hsp : splitSep rest with
      | nil => exact absurd hsp (splitSep_ne_nil rest)
      | cons g0 gs =>
        rw [show splitSep (c :: rest) = (c :: g0) :: gs from by simp [splitSep, hc, hsp]] at hg
        rcases List.mem_cons.mp hg with rfl | hg'
        · intro hmem
          rcases List.mem_cons.mp hmem with rfl | hmem'
          · simp at hc
          · exact ih g0 (hsp ▸ List.mem_cons_self g0 gs) hmem'
        · exact ih g (hsp ▸ List.mem_cons_of_mem g0 hg')

theorem parseRelChars_valid (l : List Char) : ∀ s ∈ parseRelChars l, validSeg s = true := by
  intro s hs
  simp only [parseRelChars, List.mem_filter, List.mem_map] at hs
  obtain ⟨⟨g, hg, rfl⟩, hcond⟩ := hs
  simp only [Bool.and_eq_true] at hcond
  simp only [validSeg, Bool.and_eq_true]
  refine ⟨⟨hcond.1, hcond.2⟩, ?_⟩
  have hns : '/' ∉ g := splitSep_no_slash l g hg
  simp only [Bool.not_eq_true']
  show g.contains '/' = false
  simpa using hns

theorem validSeg_spec {s : String} (h : validSeg s = true) :
    s ≠ "" ∧ s ≠ "." ∧ '/' ∉ s.data := by
  simp only [validSeg, Bool.and_eq_true, bne_iff_ne, Bool.not_eq_true'] at h
  obtain ⟨⟨h1, h2⟩, h3⟩ := h
  refine ⟨h1, h2, fun hmem => ?_⟩
  have hcon : s.data.contains '/' = true := by simpa using hmem
  rw [h3] at hcon
  cases hcon

theorem parseOnePart_validSeg (s : String) (h : validSeg s = true) :
    parseOnePart s = ("", [s]) := by
  obtain ⟨h1, h2, h3⟩ := validSeg_spec h
  have htake : s.data.takeWhile (fun c => c == '/') = [] := by
    cases hd : s.data with
    | nil => rfl
    | cons c t =>
      have hc : (c == '/') = false := by
        refine Bool.eq_false_iff.mpr (fun hcon => h3 ?_)
        rw [hd, (beq_iff_eq.mp hcon)]
        exact List.mem_cons_self _ _
      simp [List.takeWhile_cons, hc]
  rw [parseOnePart_simple s htake]
  have hsplit : splitSep s.data = [s.data] := by
    have : ∀ l : List Char, '/' ∉ l → splitSep l = [l] := by
      intro l
      induction l with
      | nil => intro _; rfl
      | cons c t ih =>
        intro hni
        have hc : (c == '/') = false := by
          refine Bool.eq_false_iff.mpr (fun hcon => hni ?_)
          rw [beq_iff_eq.mp hcon]
          exact List.mem_cons_self _ _
        rw [show splitSep (c :: t) = match splitSep t with
            | [] => [[c]]
            | g :: gs => (c :: g) :: gs from by simp [splitSep, hc]]
        rw [ih (fun hm => hni (List.mem_cons_of_mem _ hm))]
    exact this s.data h3
  simp only [parseRelChars, hsplit, List.map_cons, List.map_nil]
  rw [show String.mk s.data = s from rfl]
  simp [List.filter_cons, h1, h2]

theorem parseParts_valid (l : List String) (h : ∀ s ∈ l, validSeg s = true) :
    parseParts l = ("", l) := by
  induction l with
  | nil => rfl
  | cons s rest ih =>
    have hr := ih (fun t ht => h t (List.mem_cons_of_mem _ ht))
    simp [parseParts, hr, parseOnePart_validSeg s (h s (List.mem_cons_self _ _))]

theorem mkParts_rel (l : List String) : mkParts "" "" l = l := by simp [mkParts]

theorem absPartsOf_rel (l : List String) : absPartsOf "" "" l = l := by simp [absPartsOf]

/-- relative_to against a relatively valid other path, fully reduced to
the final conditional. -/
theorem relativeTo1_reduce (x p : RemotePath) (hpp : parseParts p.parts = ("", p.parts)) :
    relativeTo1 x p
      = (if (if p.parts.length = 0 then x.root ≠ "" ∨ x.drv ≠ ""
             else (absPartsOf x.drv x.root x.parts).take p.parts.length ≠ p.parts)
         then .error (.notRelative (strOf x) (formatParsedParts "" "" p.parts))
         else .ok (fromParsedParts x.cls "" (if p.parts.length = 1 then x.root else "")
            ((absPartsOf x.drv x.root x.parts).drop p.parts.length) x.remote)) := by
  simp only [relativeTo1, relativeTo, List.isEmpty_cons, List.flatMap_cons, argStrings,
    List.flatMap_nil, List.append_nil, hpp, Bool.false_eq_true, if_false,
    mkParts_rel, absPartsOf_rel]

theorem relativeTo1_ok_mem (x p : RemotePath) (hp : relativeValid p)
    {rel : RemotePath} (h : relativeTo1 x p = .ok rel) :
    ∀ t ∈ rel.parts, t ∈ absPartsOf x.drv x.root x.parts := by
  obtain ⟨-, -, hv⟩ := hp
  rw [relativeTo1_reduce x p (parseParts_valid p.parts hv)] at h
  by_cases hcnd : (if p.parts.length = 0 then x.root ≠ "" ∨ x.drv ≠ ""
      else (absPartsOf x.drv x.root x.parts).take p.parts.length ≠ p.parts)
  · rw [if_pos hcnd] at h
    cases h
  · rw [if_neg hcnd] at h
    have hr := (Except.ok.inj h).symm
    intro t ht
    rw [hr] at ht
    exact List.mem_of_mem_drop ht

theorem relativeTo1_rooted_err (x p : RemotePath) (hp : relativeValid p)
    (hroot : x.root ≠ "") (hdrv : x.drv = "") (rel : RemotePath) :
    relativeTo1 x p ≠ .ok rel := by
  obtain ⟨-, -, hv⟩ := hp
  intro h
  rw [relativeTo1_reduce x p (parseParts_valid p.parts hv)] at h
  have hcnd : (if p.parts.length = 0 then x.root ≠ "" ∨ x.drv ≠ ""
      else (absPartsOf x.drv x.root x.parts).take p.parts.length ≠ p.parts) := by
    by_cases hn : p.parts.length = 0
    · rw [if_pos hn]
      exact Or.inl hroot
    · rw [if_neg hn]
      intro heq
      obtain ⟨q, qs, hps⟩ : ∃ q qs, p.parts = q :: qs := by
        cases hps : p.parts with
        | nil => exact absurd (by rw [hps]; rfl) hn
        | cons q qs => exact ⟨q, qs, rfl⟩
      have hap : absPartsOf x.drv x.root x.parts = "" :: x.root :: x.parts.drop 1 := by
        rw [hdrv]
        simp [absPartsOf, hroot]
      rw [hap, hps, List.length_cons, List.take_succ_cons] at heq
      injection heq with h1 h2
      have := hv q (hps ▸ List.mem_cons_self _ _)
      rw [← h1] at this
      exact absurd this (by decide)
  rw [if_pos hcnd] at h
  cases h

theorem headD_mem {l : List String} (h : l.isEmpty = false) : l.headD "" ∈ l := by
  cases l with
  | nil => cases h
  | cons a t => exact List.mem_cons_self _ _

/-- Every directory segment childLabel produces for a relatively valid
parent is a valid segment. -/
theorem childLabel_inr_valid (p : RemotePath) (hp : relativeValid p) (a s : String)
    (h : childLabel p a = some (Sum.inr s)) : validSeg s = true := by
  by_cases h1 : pathEq p (parent (remotePathNew PathCls.dandiPath [.str a] none)) = true
  · simp [childLabel, h1] at h
  · cases hrel : relativeTo1 (remotePathNew PathCls.dandiPath [.str a] none) p with
    | error e => simp [childLabel, h1, hrel] at h
    | ok rel =>
      by_cases h2 : rel.parts.isEmpty = true
      · simp [childLabel, h1, hrel, h2] at h
      · have hs : s = rel.parts.headD "" := by
          simp [childLabel, h1, hrel, h2] at h
          rw [List.headD_eq_head?_getD]
          exact h.symm
        have hne : rel.parts.isEmpty = false := Bool.eq_false_iff.mpr h2
        have hsm : s ∈ rel.parts := hs ▸ headD_mem hne
        set ap := remotePathNew PathCls.dandiPath [.str a] none with hap
        by_cases hr : ap.root = ""
        · have hmem := relativeTo1_ok_mem ap p hp hrel s hsm
          have hform : absPartsOf ap.drv ap.root ap.parts = (parseParts [a]).2 := by
            rw [show ap.drv = "" from rfl, hr]
            rw [absPartsOf_rel]
            show mkParts "" (parseParts [a]).1 (parseParts [a]).2 = (parseParts [a]).2
            rw [show (parseParts [a]).1 = "" from hr, mkParts_rel]
          rw [hform, parseParts_single] at hmem
          exact parseRelChars_valid _ s hmem
        · exact absurd hrel (relativeTo1_rooted_err ap p hp hr rfl rel)

/-- Joining one valid segment appends exactly that segment and keeps
the remote. -/
theorem makeChild_validSeg (p : RemotePath) (s : String) (h : validSeg s = true) :
    makeChild p [.str s]
      = fromParsedParts p.cls p.drv p.root (p.parts ++ [s]) p.remote := by
  have hps : parseParts [s] = ("", [s]) := by
    rw [parseParts_single]
    exact parseOnePart_validSeg s h
  simp only [makeChild, List.flatMap_cons, argStrings, List.flatMap_nil, List.append_nil,
    hps, mkParts_rel, joinParsedParts, argsRemote]
  rw [if_neg (fun hcon : ("" : String) ≠ "" => hcon rfl)]
  cases hrem : p.remote <;> simp [fromParsedParts, hrem, Option.orElse]

theorem pathEq_makeChild_seg (p : RemotePath) (a b : String)
    (ha : validSeg a = true) (hb : validSeg b = true) :
    pathEq (makeChild p [.str a]) (makeChild p [.str b]) = (a == b) := by
  rw [makeChild_validSeg p a ha, makeChild_validSeg p b hb]
  simp only [pathEq, casefoldParts, fromParsedParts]
  by_cases hab : a = b
  · subst hab
    simp
  · rw [beq_eq_false_iff_ne.mpr (fun hcon => hab (by simpa using hcon)),
      beq_eq_false_iff_ne.mpr hab]

theorem any_pathEq_map (p : RemotePath) (b : String) (hb : validSeg b = true) :
    ∀ names : List String, (∀ t ∈ names, validSeg t = true) →
    (names.map (fun t => makeChild p [.str t])).any
        (fun q => pathEq q (makeChild p [.str b]))
      = names.contains b := by
  intro names
  induction names with
  | nil => intro _; rfl
  | cons t ts ih =>
    intro hn
    simp only [List.map_cons, List.any_cons]
    rw [pathEq_makeChild_seg p t b (hn t (List.mem_cons_self _ _)) hb,
      ih (fun u hu => hn u (List.mem_cons_of_mem _ hu))]
    show (t == b || ts.contains b) = List.elem b (t :: ts)
    rw [List.elem_cons]
    by_cases htb : t = b
    · subst htb
      simp
    · rw [beq_eq_false_iff_ne.mpr htb, beq_eq_false_iff_ne.mpr (Ne.symm htb)]
      rfl

theorem bne_inr_inr (t s : String) :
    ((Sum.inr t : Sum String String) != Sum.inr s) = !(t == s) := rfl

theorem contains_append_singleton (l : List String) (s t : String) :
    (l ++ [s]).contains t = (l.contains t || t == s) := by
  induction l with
  | nil =>
    show List.elem t [s] = (List.elem t [] || t == s)
    rw [List.elem_cons]
    cases htb : t == s <;> simp [htb, List.elem_nil]
  | cons x xs ih =>
    show List.elem t (x :: (xs ++ [s])) = (List.elem t (x :: xs) || t == s)
    rw [List.elem_cons, List.elem_cons]
    cases hx : t == x
    · simpa [hx] using ih
    · simp [hx]

/-- Removing one directory segment from the already-filtered labels is
the same as filtering with that segment added to the seen list. -/
theorem keepInr_filter_fuse (subdirs : List String) (s : String) :
    ∀ X : List (Sum String String),
    (X.filter (keepInr subdirs)).filter (fun e => e != Sum.inr s)
      = X.filter (keepInr (subdirs ++ [s])) := by
  intro X
  induction X with
  | nil => rfl
  | cons e rest ih =>
    cases e with
    | inl t =>
      simp only [List.filter_cons, show keepInr subdirs (Sum.inl t) = true from rfl,
        show keepInr (subdirs ++ [s]) (Sum.inl t) = true from rfl, if_true,
        show ((Sum.inl t : Sum String String) != Sum.inr s) = true from rfl]
      rw [ih]
    | inr t =>
      have hkeep : ∀ u : List String, keepInr u (Sum.inr t) = !(u.contains t) :=
        fun u => rfl
      by_cases h1 : subdirs.contains t = true
      · have hk1 : keepInr subdirs (Sum.inr t) = false := by rw [hkeep, h1]; rfl
        have hk2 : keepInr (subdirs ++ [s]) (Sum.inr t) = false := by
          rw [hkeep, contains_append_singleton, h1]
          rfl
        simp only [List.filter_cons, hk1, hk2, if_false, Bool.false_eq_true, ih]
      · have h1' : subdirs.contains t = false := Bool.eq_false_iff.mpr h1
        have hk1 : keepInr subdirs (Sum.inr t) = true := by rw [hkeep, h1']; rfl
        by_cases h2 : t = s
        · subst h2
          have hk2 : keepInr (subdirs ++ [t]) (Sum.inr t) = false := by
            rw [hkeep, contains_append_singleton, h1', beq_self_eq_true]
            rfl
          have hbne0 : ((Sum.inr t : Sum String String) != Sum.inr t) = false := by
            rw [bne_inr_inr, beq_self_eq_true]
            rfl
          simp only [List.filter_cons, hk1, hk2, if_true, if_false, Bool.false_eq_true,
            hbne0, ih]
        · have hk2 : keepInr (subdirs ++ [s]) (Sum.inr t) = true := by
            rw [hkeep, contains_append_singleton, h1', beq_eq_false_iff_ne.mpr h2]
            rfl
          have hbne : ((Sum.inr t : Sum String String) != Sum.inr s) = true := by
            rw [bne_inr_inr, beq_eq_false_iff_ne.mpr h2]
            rfl
          simp only [List.filter_cons, hk1, hk2, hbne, if_true, ih]

theorem keepInr_inr (u : List String) (s : String) :
    keepInr u (Sum.inr s) = (u.contains s).not := rfl

theorem keepInr_nil (X : List (Sum String String)) : X.filter (keepInr []) = X := by
  apply List.filter_eq_self.mpr
  intro e he
  cases e <;> rfl

/-- The iterdir loop is the per-asset classification with first-seen
deduplication of the directory segments, rendered as strings. -/
theorem iterdirLoop_spec (p : RemotePath) : ∀ (assets subdirs : List String),
    iterdirLoop p assets subdirs
      = (specDedupF ((assets.filterMap (childLabel p)).filter (keepInr subdirs))).map
          iterEntry := by
  intro assets
  induction assets with
  | nil => intro subdirs; simp [iterdirLoop, specDedupF]
  | cons a rest ih =>
    intro subdirs
    cases hl : childLabel p a with
    | none =>
      have hloop : iterdirLoop p (a :: rest) subdirs = iterdirLoop p rest subdirs := by
        simp only [iterdirLoop, hl]
      rw [hloop, List.filterMap_cons_none hl]
      exact ih subdirs
    | some lbl =>
      cases lbl with
      | inl s =>
        have hloop : iterdirLoop p (a :: rest) subdirs
            = .str ((remotePathNew PathCls.dandiPath [.str s] none).parts.getLastD "")
              :: iterdirLoop p rest subdirs := by
          simp only [iterdirLoop, hl]
        have hfil : (Sum.inl s :: rest.filterMap (childLabel p)).filter (keepInr subdirs)
            = Sum.inl s :: (rest.filterMap (childLabel p)).filter (keepInr subdirs) := by
          rw [List.filter_cons, show keepInr subdirs (Sum.inl s) = true from rfl]
          simp
        rw [hloop, List.filterMap_cons_some hl, hfil,
          show specDedupF (Sum.inl s :: (rest.filterMap (childLabel p)).filter
              (keepInr subdirs))
            = Sum.inl s :: specDedupF ((rest.filterMap (childLabel p)).filter
              (keepInr subdirs)) from by simp [specDedupF],
          List.map_cons, ih subdirs]
        rfl
      | inr s =>
        by_cases hc : subdirs.contains s = true
        · have hloop : iterdirLoop p (a :: rest) subdirs = iterdirLoop p rest subdirs := by
            simp only [iterdirLoop, hl]
            rw [if_pos hc]
          have hk : keepInr subdirs (Sum.inr s) = false := by
            rw [keepInr_inr, hc]
            rfl
          have hfil : (Sum.inr s :: rest.filterMap (childLabel p)).filter (keepInr subdirs)
              = (rest.filterMap (childLabel p)).filter (keepInr subdirs) := by
            rw [List.filter_cons, hk]
            simp
          rw [hloop, List.filterMap_cons_some hl, hfil]
          exact ih subdirs
        · have hc' : subdirs.contains s = false := Bool.eq_false_iff.mpr hc
          have hloop : iterdirLoop p (a :: rest) subdirs
              = .str s :: iterdirLoop p rest (subdirs ++ [s]) := by
            simp only [iterdirLoop, hl]
            rw [if_neg hc]
          have hk : keepInr subdirs (Sum.inr s) = true := by
            rw [keepInr_inr, hc']
            rfl
          have hfil : (Sum.inr s :: rest.filterMap (childLabel p)).filter (keepInr subdirs)
              = Sum.inr s :: (rest.filterMap (childLabel p)).filter (keepInr subdirs) := by
            rw [List.filter_cons, hk]
            simp
          rw [hloop, List.filterMap_cons_some hl, hfil,
            show specDedupF (Sum.inr s :: (rest.filterMap (childLabel p)).filter
                (keepInr subdirs))
              = Sum.inr s :: specDedupF (((rest.filterMap (childLabel p)).filter
                (keepInr subdirs)).filter (fun e => e != Sum.inr s)) from by
              simp [specDedupF],
            keepInr_filter_fuse, List.map_cons, ih (subdirs ++ [s])]
          rfl

/-- The scandir loop is the same classification and deduplication,
rendered as DandiPath objects; the accumulated joined paths compare
exactly like their segments. -/
theorem scandirLoop_spec (p : RemotePath) (hp : relativeValid p) :
    ∀ (assets names : List String), (∀ t ∈ names, validSeg t = true) →
    scandirLoop p assets (names.map (fun t => makeChild p [.str t]))
      = (specDedupF ((assets.filterMap (childLabel p)).filter (keepInr names))).map
          (scanEntry p) := by
  intro assets
  induction assets with
  | nil => intro names hn; simp [scandirLoop, specDedupF]
  | cons a rest ih =>
    intro names hn
    cases hl : childLabel p a with
    | none =>
      have hloop : scandirLoop p (a :: rest) (names.map (fun t => makeChild p [.str t]))
          = scandirLoop p rest (names.map (fun t => makeChild p [.str t])) := by
        simp only [scandirLoop, hl]
      rw [hloop, List.filterMap_cons_none hl]
      exact ih names hn
    | some lbl =>
      cases lbl with
      | inl s =>
        have hloop : scandirLoop p (a :: rest) (names.map (fun t => makeChild p [.str t]))
            = .path (remotePathNew PathCls.dandiPath [.str s] p.remote)
              :: scandirLoop p rest (names.map (fun t => makeChild p [.str t])) := by
          simp only [scandirLoop, hl]
        have hfil : (Sum.inl s :: rest.filterMap (childLabel p)).filter (keepInr names)
            = Sum.inl s :: (rest.filterMap (childLabel p)).filter (keepInr names) := by
          rw [List.filter_cons, show keepInr names (Sum.inl s) = true from rfl]
          simp
        rw [hloop, List.filterMap_cons_some hl, hfil,
          show specDedupF (Sum.inl s :: (rest.filterMap (childLabel p)).filter
              (keepInr names))
            = Sum.inl s :: specDedupF ((rest.filterMap (childLabel p)).filter
              (keepInr names)) from by simp [specDedupF],
          List.map_cons, ih names hn]
        rfl
      | inr s =>
        have hs : validSeg s = true := childLabel_inr_valid p hp a s hl
        have hany : (names.map (fun t => makeChild p [.str t])).any
            (fun q => pathEq q (makeChild p [.str s])) = names.contains s :=
          any_pathEq_map p s hs names hn
        by_cases hc : names.contains s = true
        · have hloop : scandirLoop p (a :: rest) (names.map (fun t => makeChild p [.str t]))
              = scandirLoop p rest (names.map (fun t => makeChild p [.str t])) := by
            simp only [scandirLoop, hl]
            rw [if_pos (by rw [hany]; exact hc)]
          have hk : keepInr names (Sum.inr s) = false := by
            rw [keepInr_inr, hc]
            rfl
          have hfil : (Sum.inr s :: rest.filterMap (childLabel p)).filter (keepInr names)
              = (rest.filterMap (childLabel p)).filter (keepInr names) := by
            rw [List.filter_cons, hk]
            simp
          rw [hloop, List.filterMap_cons_some hl, hfil]
          exact ih names hn
        · have hc' : names.contains s = false := Bool.eq_false_iff.mpr hc
          have hloop : scandirLoop p (a :: rest) (names.map (fun t => makeChild p [.str t]))
              = .path (makeChild p [.str s])
                :: scandirLoop p rest ((names ++ [s]).map (fun t => makeChild p [.str t]))
              := by
            simp only [scandirLoop, hl]
            rw [if_neg (by rw [hany]; exact hc), List.map_append]
            rfl
          have hk : keepInr names (Sum.inr s) = true := by
            rw [keepInr_inr, hc']
            rfl
          have hfil : (Sum.inr s :: rest.filterMap (childLabel p)).filter (keepInr names)
              = Sum.inr s :: (rest.filterMap (childLabel p)).filter (keepInr names) := by
            rw [List.filter_cons, hk]
            simp
          have hvalid2 : ∀ t ∈ names ++ [s], validSeg t = true := by
            intro t ht
            rcases List.mem_append.mp ht with hmem | hmem
            · exact hn t hmem
            · rw [List.mem_singleton.mp hmem]
              exact hs
          rw [hloop, List.filterMap_cons_some hl, hfil,
            show specDedupF (Sum.inr s :: (rest.filterMap (childLabel p)).filter
                (keepInr names))
              = Sum.inr s :: specDedupF (((rest.filterMap (childLabel p)).filter
                (keepInr names)).filter (fun e => e != Sum.inr s)) from by
              simp [specDedupF],
            keepInr_filter_fuse, List.map_cons, ih (names ++ [s]) hvalid2]
          rfl

/-- C1 counterexample: on the scenario store, iterating children of
sub-01 through iterdir yields the plain strings ses-1 and ses-2 (in that
order), not RemotePath objects - refuting the claim that each
pseudo-directory result of the iteration is a RemotePath carrying the
remote handle. -/
theorem c1_iterdir_yields_strings :
    iterdir demoP = .ok [DirEntry.str "ses-1", DirEntry.str "ses-2"] := by rfl

/-- C1 (amended): iterating a non-directory fails with the
not-a-directory error for both iterdir and scandir; on a directory,
both yield the per-asset classification - every direct file child once,
plus one pseudo-directory child per distinct first remaining segment of
the deeper descendants, deduplicated by that segment in first-seen
order - where scandir renders every entry as a DandiPath carrying p's
remote handle, while iterdir renders name strings. -/
theorem c1_children_listing_amended (p : RemotePath) (ds : RemoteDandiset) :
    (isDir p = false →
      iterdir p = .error PathError.notADirectory
      ∧ scandir p = .error PathError.notADirectory)
    ∧ (∀ lbl, ∃ q, scanEntry p lbl = .path q ∧ q.remote = p.remote)
    ∧ (p.remote = some ds → isDir p = true →
        iterdir p = .ok ((specDedupF ((getAssetsWithPathPfx ds (strOf p)).filterMap
          (childLabel p))).map iterEntry))
    ∧ (p.remote = some ds → isDir p = true → relativeValid p →
        scandir p = .ok ((specDedupF ((getAssetsWithPathPfx ds (strOf p)).filterMap
          (childLabel p))).map (scanEntry p))) := by
  refine ⟨fun hnd => ?_, fun lbl => ?_, fun hrem hdir => ?_, fun hrem hdir hval => ?_⟩
  · constructor
    · simp [iterdir, hnd]
    · simp [scandir, hnd]
  · cases lbl with
    | inl a => exact ⟨_, rfl, rfl⟩
    | inr seg =>
      refine ⟨_, rfl, ?_⟩
      show (fromParsedParts p.cls _ _ _
        (p.remote.orElse (fun _ => argsRemote [.str seg]))).remote = p.remote
      cases hr : p.remote <;> simp [fromParsedParts, argsRemote, Option.orElse]
  · rw [show iterdir p = .ok (iterdirLoop p (getAssetsWithPathPfx ds (strOf p)) []) from by
      simp [iterdir, hdir, hrem]]
    rw [iterdirLoop_spec, keepInr_nil]
  · rw [show scandir p = .ok (scandirLoop p (getAssetsWithPathPfx ds (strOf p)) []) from by
      simp [scandir, hdir, hrem]]
    have h0 : scandirLoop p (getAssetsWithPathPfx ds (strOf p)) []
        = scandirLoop p (getAssetsWithPathPfx ds (strOf p))
            (([] : List String).map (fun t => makeChild p [.str t])) := rfl
    rw [h0, scandirLoop_spec p hval _ [] (fun t ht => absurd ht (List.not_mem_nil t)),
      keepInr_nil]

/-- Witness for C1: the amended statement discharged on the scenario
store, where the listing is ses-1 then ses-2. -/
theorem c1_children_listing_amended_witness :
    (demoP.remote = some demoDS ∧ isDir demoP = true ∧ relativeValid demoP)
    ∧ iterdir demoP = .ok [DirEntry.str "ses-1", DirEntry.str "ses-2"]
    ∧ scandir demoP = .ok ((specDedupF ((getAssetsWithPathPfx demoDS
        (strOf demoP)).filterMap (childLabel demoP))).map (scanEntry demoP)) :=
  ⟨⟨rfl, by decide, by decide⟩, by rfl,
    (c1_children_listing_amended demoP demoDS).2.2.2 rfl (by decide) (by decide)⟩

end Spimio

